import Mathlib

/-
Verification development for the SMAPE-leaderboard backend
(backend/main.py of the repository under study).

Modelling conventions.

* The metric `calculate_smape` receives the two parsed numeric columns as
  lists of rationals (CSV cells are decimal literals).  numpy float64
  arithmetic is idealised as exact arithmetic, `np.sqrt` as `Real.sqrt`,
  and Python `round(x, 2)` as round-half-to-even at two decimal places on
  the exact value.  A Python exception raised inside the metric (a numpy
  broadcast error on incompatible shapes) is modelled as `none`.
  One-dimensional numpy broadcasting combines two vectors exactly when
  they have equal length or either has length 1.

* The database tables `submissions` (one best-score row per team),
  `team_submissions` (append-only attempt log) and `submission_history`
  (session log) are modelled as insertion-ordered lists; the SERIAL id
  column of `submissions` is modelled with an explicit counter.  SQL
  `SELECT ... ORDER BY k` leaves the relative order of rows with equal
  keys unspecified, so the two ordered queries (`/leaderboard`,
  `/user/{name}`) are modelled as relations: any permutation of the
  selected rows that is sorted on the key is a legal response.

* Timestamps are `%Y-%m-%d %H:%M:%S` strings in the code, whose
  lexicographic order is chronological order; they are modelled as `ℕ`.

* Authentication is boundary-layer work (spec §1, §6); the handlers are
  modelled from their post-authentication bodies, with the team identity
  already resolved.
-/

/-! ### Metric evaluator (`calculate_smape`, main.py lines 45-74) -/

/-- The stabiliser `1e-8` that the code adds to the reference vector. -/
def eps : ℚ := 1 / 100000000

/-- `np.mean` of a rational vector.  For the empty vector numpy yields NaN
without raising; here the junk value `0 / 0 = 0` appears instead, and no
theorem about nonempty input depends on it. -/
def mean (l : List ℚ) : ℚ := l.sum / (l.length : ℚ)

/-- Elementwise combination of two 1-d numpy arrays under broadcasting:
defined when the lengths agree or either length is 1, a `ValueError`
(`none`) otherwise. -/
def broadcast2 (f : ℚ → ℚ → ℚ) (a b : List ℚ) : Option (List ℚ) :=
  if a.length = b.length then some (List.zipWith f a b)
  else if a.length = 1 then some (b.map (fun y => f a.headI y))
  else if b.length = 1 then some (a.map (fun x => f x b.headI))
  else none

/-- Python `round(q, 2)`: round half to even at two decimal places. -/
def rnd2 (q : ℚ) : ℚ :=
  ((if 100 * q - ((⌊100 * q⌋ : ℤ) : ℚ) < 1 / 2 then ⌊100 * q⌋
    else if 1 / 2 < 100 * q - ((⌊100 * q⌋ : ℤ) : ℚ) then ⌊100 * q⌋ + 1
    else if ⌊100 * q⌋ % 2 = 0 then ⌊100 * q⌋ else ⌊100 * q⌋ + 1 : ℤ) : ℚ) / 100

open scoped Classical in
/-- The same rounding on the real result of the metric. -/
noncomputable def rnd2R (x : ℝ) : ℝ :=
  ((if 100 * x - ((⌊100 * x⌋ : ℤ) : ℝ) < 1 / 2 then ⌊100 * x⌋
    else if 1 / 2 < 100 * x - ((⌊100 * x⌋ : ℤ) : ℝ) then ⌊100 * x⌋ + 1
    else if ⌊100 * x⌋ % 2 = 0 then ⌊100 * x⌋ else ⌊100 * x⌋ + 1 : ℤ) : ℝ) / 100

/-- `calculate_smape(actual, predicted)` from main.py lines 45-74, after
the two CSV columns have been parsed: RMSE, an epsilon-stabilised
relative-error mean times 100, a Huber loss with `delta = 1.0`, combined
as `smape_val * (1 + rmse / 12.5) + huber_loss` and rounded once. -/
noncomputable def calculate_smape (df_actual df_predicted : List ℚ) : Option ℝ :=
  match broadcast2 (fun a b => a - b) df_actual df_predicted with
  | none => none
  | some errors =>
    match broadcast2 (fun a b => a / b) errors (df_actual.map (fun a => a + eps)) with
    | none => none
    | some rel =>
      some (rnd2R
        (((mean (rel.map (fun x => |x|)) * 100 : ℚ) : ℝ)
          * (1 + Real.sqrt ((mean (errors.map (fun e => e ^ 2)) : ℚ) : ℝ) / (25 / 2))
          + ((mean (errors.map (fun e =>
              if |e| ≤ 1 then 1 / 2 * e ^ 2 else 1 * (|e| - 1 / 2))) : ℚ) : ℝ)))

/-- The metric the specification asserts: canonical symmetric mean
absolute percentage error, written from the claim
`100 * mean_i(|c_i - r_i| / ((|r_i| + |c_i|) / 2))`. -/
def specSmape (reference candidate : List ℚ) : ℚ :=
  100 * mean (List.zipWith (fun r c => |c - r| / ((|r| + |c|) / 2)) reference candidate)

/-- The composite score the code actually computes, written from the
amended claim: `smape_val * (1 + rmse / 12.5) + huber_loss` with
`smape_val = 100 * mean |(r_i - c_i) / (r_i + 1e-8)|`,
`rmse = sqrt(mean (r_i - c_i)^2)` and a `delta = 1` Huber loss, rounded
to two decimals once at the end. -/
noncomputable def compositeSpecScore (reference candidate : List ℚ) : ℝ :=
  rnd2R
    (((100 * mean ((List.zipWith (fun r c => (r - c) / (r + eps)) reference candidate).map
          (fun x => |x|)) : ℚ) : ℝ)
      * (1 + Real.sqrt ((mean ((List.zipWith (fun r c => r - c) reference candidate).map
            (fun e => e ^ 2)) : ℚ) : ℝ) / (25 / 2))
      + ((mean ((List.zipWith (fun r c => r - c) reference candidate).map
            (fun e => if |e| ≤ 1 then e ^ 2 / 2 else |e| - 1 / 2)) : ℚ) : ℝ))

/-! ### Submission store and handlers (main.py lines 87-313) -/

/-- A row of the `submissions` table: one best-score entry, with the
SERIAL `id`, the `"user"` column holding the team id, the stored score
and the timestamp of the submission that achieved it. -/
structure SubRow where
  id : ℕ
  user : String
  smape : ℚ
  timestamp : ℕ
deriving DecidableEq

/-- A row of the `team_submissions` attempt log. -/
structure AttRow where
  team_id : String
  smape : ℚ
  timestamp : ℕ
deriving DecidableEq

/-- A row of the `submission_history` session log. -/
structure HistRow where
  id : ℕ
  session_id : String
  team : String
  smape : ℚ
  timestamp : ℕ
deriving DecidableEq

/-- The persistent state: the three tables in insertion order plus the
SERIAL counters (which `DELETE` does not reset). -/
structure DBState where
  submissions : List SubRow
  team_submissions : List AttRow
  submission_history : List HistRow
  nextSubId : ℕ
  nextHistId : ℕ
deriving DecidableEq

def initialState : DBState := ⟨[], [], [], 0, 0⟩

/-- main.py line 30. -/
def MAX_SUBMISSIONS_PER_TEAM : ℕ := 10

/-- The best-score rows stored for a team (exact, case-sensitive match,
as in `SELECT ... FROM submissions WHERE "user" = %s`). -/
def entriesOf (s : DBState) (t : String) : List SubRow :=
  s.submissions.filter (fun r => r.user = t)

/-- The attempt-log rows of a team (exact match, as in
`SELECT ... FROM team_submissions WHERE team_id = %s`). -/
def attemptsOf (s : DBState) (t : String) : List AttRow :=
  s.team_submissions.filter (fun r => r.team_id = t)

/-- `SELECT COUNT(*) FROM team_submissions WHERE team_id = %s`. -/
def countAttempts (s : DBState) (t : String) : ℕ := (attemptsOf s t).length

/-- Outcome of the `/upload` handler: the error payload, or the score
with the `is_best` flag and the remaining-submission count. -/
inductive UploadResult where
  | error : UploadResult
  | ok : ℚ → Bool → ℕ → UploadResult
deriving DecidableEq

/-- `UPDATE submissions SET smape = %s, timestamp = %s WHERE id = %s`
applied to one row. -/
def updRow (i : ℕ) (sc : ℚ) (ts : ℕ) (r : SubRow) : SubRow :=
  if r.id = i then { r with smape := sc, timestamp := ts } else r

/-- The `/upload` handler (main.py lines 87-180) after authentication,
with the team id resolved and the metric already evaluated to `score`:
reject when the attempt count has reached the maximum (before any write
and independently of the score); otherwise update the team's best-score
row if the new score is strictly lower (insert it if absent), and always
append to the attempt log. -/
def upload (s : DBState) (team : String) (score : ℚ) (ts : ℕ) :
    DBState × UploadResult :=
  if MAX_SUBMISSIONS_PER_TEAM ≤ countAttempts s team then (s, .error)
  else
    let upd : List SubRow × Bool × ℕ :=
      match s.submissions.find? (fun r => r.user = team) with
      | some ex =>
        if score < ex.smape then
          (s.submissions.map (updRow ex.id score ts), true, s.nextSubId)
        else (s.submissions, false, s.nextSubId)
      | none => (s.submissions ++ [⟨s.nextSubId, team, score, ts⟩], true, s.nextSubId + 1)
    let s2 : DBState :=
      { s with submissions := upd.1, nextSubId := upd.2.2,
               team_submissions := s.team_submissions ++ [⟨team, score, ts⟩] }
    (s2, .ok score upd.2.1 (MAX_SUBMISSIONS_PER_TEAM - countAttempts s2 team))

/-- One accepted-or-rejected submission request. -/
structure UploadEvent where
  team : String
  score : ℚ
  ts : ℕ

/-- A sequence of submission requests applied to the empty store. -/
def run (events : List UploadEvent) : DBState :=
  events.foldl (fun s e => (upload s e.team e.score e.ts).1) initialState

/-- The `/leaderboard/reset` handler body (main.py lines 270-277):
`DELETE` on all three tables. -/
def reset (s : DBState) : DBState :=
  { s with submissions := [], team_submissions := [], submission_history := [] }

/-- The `DELETE /history/{session_id}` handler (main.py lines 305-313). -/
def clear_history (s : DBState) (sid : String) : DBState :=
  { s with submission_history :=
      s.submission_history.filter (fun r => ¬ r.session_id = sid) }

/-- The `/leaderboard` query (main.py lines 182-206):
`SELECT ... ORDER BY s.smape ASC`.  Any permutation of the stored rows
that is ascending in `smape` is a legal database response; the relative
order of equal scores is not specified by the query. -/
def leaderboardRel (s : DBState) (out : List SubRow) : Prop :=
  s.submissions.Perm out ∧ out.Sorted (fun a b => a.smape ≤ b.smape)

/-- The rank assignment of the handler: `enumerate(rows, 1)`. -/
def ranked (out : List SubRow) : List (ℕ × SubRow) :=
  out.enum.map (fun p => (p.1 + 1, p.2))

/-- SQL `LOWER()`: lowercase every character of the string. -/
def lowerStr (s : String) : String := String.mk (s.data.map Char.toLower)

/-- The `/user/{name}` query (main.py lines 238-249):
`SELECT ... FROM submissions WHERE LOWER("user") = LOWER(%s) ORDER BY
timestamp DESC`, with the tie order of equal timestamps unspecified. -/
def userHistoryRel (s : DBState) (name : String) (out : List SubRow) : Prop :=
  (s.submissions.filter (fun r => lowerStr r.user = lowerStr name)).Perm out
    ∧ out.Sorted (fun a b => b.timestamp ≤ a.timestamp)

/-- The ordering the leaderboard claim asserts: ascending score with
equal scores ordered by earliest timestamp. -/
def tieBreakRel (a b : SubRow) : Prop :=
  a.smape < b.smape ∨ (a.smape = b.smape ∧ a.timestamp ≤ b.timestamp)

/-- Example state of the leaderboard claim: stored best scores 12.34
(team A), 8.00 (team B), 8.00 (team C, submitted later). -/
def exEvents : List UploadEvent := [⟨"A", 1234 / 100, 1⟩, ⟨"B", 8, 2⟩, ⟨"C", 8, 3⟩]

/-- Counterexample run for the tie-break claim: team A submits 10 at
time 1, team B submits 8 at time 2, team A improves to 8 at time 3; the
two stored rows then both hold score 8, A's with the later timestamp but
the earlier table position. -/
def cexEvents : List UploadEvent := [⟨"A", 10, 1⟩, ⟨"B", 8, 2⟩, ⟨"A", 8, 3⟩]

/-- A state whose attempt log already holds 10 attempts for team `a`. -/
def quotaState : DBState := ⟨[], List.replicate 10 ⟨"a", 1, 0⟩, [], 0, 0⟩

/-- A state holding one best-score row for team `TeamAlpha`. -/
def alphaState : DBState := ⟨[⟨0, "TeamAlpha", 8, 1⟩], [], [], 1, 0⟩

/-- A state with two session-history rows under different session ids. -/
def histState : DBState := ⟨[], [], [⟨0, "s1", "a", 5, 1⟩, ⟨1, "s2", "b", 6, 2⟩], 0, 2⟩

/-- Id hygiene of the best-score table: the SERIAL ids are distinct and
below the next id to be issued. -/
def GoodIds (s : DBState) : Prop :=
  (s.submissions.map (fun r => r.id)).Nodup ∧ ∀ r ∈ s.submissions, r.id < s.nextSubId

/-- The best-score invariant for one team: either no entry and no
attempts, or exactly one entry whose score is the minimum recorded
attempt score. -/
def BestInv (s : DBState) (t : String) : Prop :=
  (entriesOf s t = [] ∧ attemptsOf s t = [])
  ∨ ∃ e, entriesOf s t = [e]
      ∧ e.smape ∈ (attemptsOf s t).map (fun r => r.smape)
      ∧ ∀ q ∈ (attemptsOf s t).map (fun r => r.smape), e.smape ≤ q

/-- The store invariant maintained by `upload`. -/
def StoreInv (s : DBState) : Prop := GoodIds s ∧ ∀ t, BestInv s t

/-! ### Helper lemmas about the metric -/

theorem rnd2R_cast (q : ℚ) : rnd2R (q : ℝ) = ((rnd2 q : ℚ) : ℝ) := by
  have hfl : ⌊(100 : ℝ) * (q : ℝ)⌋ = ⌊100 * q⌋ := by
    rw [show (100 : ℝ) * (q : ℝ) = ((100 * q : ℚ) : ℝ) by push_cast; ring, Rat.floor_cast]
  have key : (100 : ℝ) * (q : ℝ) - ((⌊100 * q⌋ : ℤ) : ℝ)
      = ((100 * q - ((⌊100 * q⌋ : ℤ) : ℚ) : ℚ) : ℝ) := by push_cast; ring
  have hhalf : (1 / 2 : ℝ) = ((1 / 2 : ℚ) : ℝ) := by norm_num
  unfold rnd2R rnd2
  rw [hfl, key]
  rcases lt_trichotomy (100 * q - ((⌊100 * q⌋ : ℤ) : ℚ)) (1 / 2) with h | h | h
  · rw [if_pos (show ((100 * q - ((⌊100 * q⌋ : ℤ) : ℚ) : ℚ) : ℝ) < 1 / 2 by
        rw [hhalf]; exact_mod_cast h), if_pos h]
    push_cast; ring
  · have h1 : ¬ ((100 * q - ((⌊100 * q⌋ : ℤ) : ℚ) : ℚ) : ℝ) < 1 / 2 := by
      rw [h]; norm_num
    have h2 : ¬ ((1 : ℝ) / 2 < ((100 * q - ((⌊100 * q⌋ : ℤ) : ℚ) : ℚ) : ℝ)) := by
      rw [h]; norm_num
    rw [if_neg h1, if_neg (not_lt_of_le (le_of_eq h.symm)), if_neg h2,
      if_neg (not_lt_of_le (le_of_eq h))]
    split_ifs <;> (push_cast; ring)
  · have h1 : ¬ ((100 * q - ((⌊100 * q⌋ : ℤ) : ℚ) : ℚ) : ℝ) < 1 / 2 := by
      rw [hhalf]
      exact not_lt_of_le (le_of_lt (by exact_mod_cast h))
    rw [if_neg h1, if_neg (not_lt_of_le (le_of_lt h)),
      if_pos (show (1 : ℝ) / 2 < ((100 * q - ((⌊100 * q⌋ : ℤ) : ℚ) : ℚ) : ℝ) by
        rw [hhalf]; exact_mod_cast h), if_pos h]
    push_cast; ring

theorem broadcast2_of_length_eq (f : ℚ → ℚ → ℚ) (a b : List ℚ) (h : a.length = b.length) :
    broadcast2 f a b = some (List.zipWith f a b) := by
  unfold broadcast2
  rw [if_pos h]

theorem calculate_smape_eq (a p errs rel : List ℚ)
    (h1 : broadcast2 (fun x y => x - y) a p = some errs)
    (h2 : broadcast2 (fun x y => x / y) errs (a.map (fun x => x + eps)) = some rel) :
    calculate_smape a p =
      some (rnd2R
        (((mean (rel.map (fun x => |x|)) * 100 : ℚ) : ℝ)
          * (1 + Real.sqrt ((mean (errs.map (fun e => e ^ 2)) : ℚ) : ℝ) / (25 / 2))
          + ((mean (errs.map (fun e =>
              if |e| ≤ 1 then 1 / 2 * e ^ 2 else 1 * (|e| - 1 / 2))) : ℚ) : ℝ))) := by
  simp only [calculate_smape, h1, h2]

theorem rnd2_zero : rnd2 0 = 0 := by
  unfold rnd2
  norm_num

theorem rnd2R_zero : rnd2R 0 = 0 := by
  have h := rnd2R_cast 0
  rw [Rat.cast_zero, rnd2_zero, Rat.cast_zero] at h
  exact h

theorem zipWith_sub_self (l : List ℚ) :
    List.zipWith (fun x y => x - y) l l = l.map (fun _ => (0 : ℚ)) := by
  induction l with
  | nil => rfl
  | cons a t ih => simp [ih]

theorem zipWith_div_zero_left (l : List ℚ) (g : ℚ → ℚ) :
    List.zipWith (fun x y => x / y) (l.map (fun _ => (0 : ℚ))) (l.map g)
      = l.map (fun _ => (0 : ℚ)) := by
  induction l with
  | nil => rfl
  | cons a t ih => simp only [List.map_cons, List.zipWith_cons_cons, zero_div, ih]

theorem mean_zero (l : List ℚ) : mean (l.map (fun _ => (0 : ℚ))) = 0 := by
  simp [mean]

theorem zipWith_zipWith_map (f g : ℚ → ℚ → ℚ) (h : ℚ → ℚ) (a p : List ℚ) :
    List.zipWith f (List.zipWith g a p) (a.map h)
      = List.zipWith (fun x y => f (g x y) (h x)) a p := by
  induction a generalizing p with
  | nil => rfl
  | cons x t ih =>
    cases p with
    | nil => rfl
    | cons y s => simp [ih]

/-- Full evaluation of the code's metric on reference `[1]`,
candidate `[2]`. -/
theorem smape_eval_12 : calculate_smape [1] [2] = some ((217 / 2 : ℚ) : ℝ) := by
  rw [calculate_smape_eq [1] [2] [-1] [-100000000 / 100000001]
    (by norm_num [broadcast2, List.zipWith_cons_cons])
    (by norm_num [broadcast2, eps, List.zipWith_cons_cons])]
  rw [show (mean (([-100000000 / 100000001] : List ℚ).map (fun x => |x|)) * 100 : ℚ)
      = 10000000000 / 100000001 by norm_num [mean, abs_of_nonneg]]
  rw [show (mean (([-1] : List ℚ).map (fun e => e ^ 2)) : ℚ) = 1 by norm_num [mean]]
  rw [show (mean (([-1] : List ℚ).map
        (fun e => if |e| ≤ 1 then 1 / 2 * e ^ 2 else 1 * (|e| - 1 / 2))) : ℚ) = 1 / 2 by
    norm_num [mean]]
  rw [show ((1 : ℚ) : ℝ) = 1 by norm_num, Real.sqrt_one]
  rw [show ((10000000000 / 100000001 : ℚ) : ℝ) * (1 + 1 / (25 / 2)) + ((1 / 2 : ℚ) : ℝ)
      = ((21700000001 / 200000002 : ℚ) : ℝ) by push_cast; norm_num]
  rw [rnd2R_cast]
  rw [show rnd2 (21700000001 / 200000002 : ℚ) = 217 / 2 by
    have h : (⌊(100 * (21700000001 / 200000002) : ℚ)⌋ : ℤ) = 10849 := by
      rw [show (100 * (21700000001 / 200000002) : ℚ) = 2170000000100 / 200000002 by norm_num]
      rw [Int.floor_eq_iff]
      norm_num
    unfold rnd2
    rw [h]
    norm_num]

/-- Full evaluation of the code's metric on reference `[2]`,
candidate `[4]`, the previous input with both vectors scaled by 2. -/
theorem smape_eval_24 : calculate_smape [2] [4] = some ((235 / 2 : ℚ) : ℝ) := by
  rw [calculate_smape_eq [2] [4] [-2] [-200000000 / 200000001]
    (by norm_num [broadcast2, List.zipWith_cons_cons])
    (by norm_num [broadcast2, eps, List.zipWith_cons_cons])]
  rw [show (mean (([-200000000 / 200000001] : List ℚ).map (fun x => |x|)) * 100 : ℚ)
      = 20000000000 / 200000001 by norm_num [mean, abs_of_nonneg]]
  rw [show (mean (([-2] : List ℚ).map (fun e => e ^ 2)) : ℚ) = 4 by norm_num [mean]]
  rw [show (mean (([-2] : List ℚ).map
        (fun e => if |e| ≤ 1 then 1 / 2 * e ^ 2 else 1 * (|e| - 1 / 2))) : ℚ) = 3 / 2 by
    norm_num [mean]]
  rw [show ((4 : ℚ) : ℝ) = (2 : ℝ) ^ 2 by norm_num,
    Real.sqrt_sq (by norm_num : (0 : ℝ) ≤ 2)]
  rw [show ((20000000000 / 200000001 : ℚ) : ℝ) * (1 + 2 / (25 / 2)) + ((3 / 2 : ℚ) : ℝ)
      = ((47000000003 / 400000002 : ℚ) : ℝ) by push_cast; norm_num]
  rw [rnd2R_cast]
  rw [show rnd2 (47000000003 / 400000002 : ℚ) = 235 / 2 by
    have h : (⌊(100 * (47000000003 / 400000002) : ℚ)⌋ : ℤ) = 11749 := by
      rw [show (100 * (47000000003 / 400000002) : ℚ) = 4700000000300 / 400000002 by norm_num]
      rw [Int.floor_eq_iff]
      norm_num
    unfold rnd2
    rw [h]
    norm_num]

/-! ### Claims C1, C5, C6, C7: the metric evaluator -/

/-- C1, counterexample.  The claim says the metric is the canonical
symmetric SMAPE rounded to two decimals; on reference `[1]`,
candidate `[2]` the code returns 108.5 while the canonical SMAPE rounds
to 66.67, so the claim is false. -/
theorem calculate_smape_not_symmetric_smape :
    calculate_smape [1] [2] ≠ some ((rnd2 (specSmape [1] [2]) : ℚ) : ℝ) := by
  rw [smape_eval_12]
  rw [show rnd2 (specSmape [1] [2]) = 6667 / 100 by
    rw [show specSmape [1] [2] = 200 / 3 by
      norm_num [specSmape, mean, List.zipWith_cons_cons]]
    have h : (⌊(100 * (200 / 3) : ℚ)⌋ : ℤ) = 6666 := by
      rw [show (100 * (200 / 3) : ℚ) = 20000 / 3 by norm_num]
      rw [Int.floor_eq_iff]
      norm_num
    unfold rnd2
    rw [h]
    norm_num]
  simp only [ne_eq, Option.some.injEq, Rat.cast_inj]
  norm_num

/-- C1, amended.  For equal-length vectors of length at least 1 the code
returns the composite score `smape_val * (1 + rmse / 12.5) + huber_loss`
(epsilon-stabilised relative error, RMSE coupling, delta-1 Huber loss),
rounded to two decimal places exactly once at the end. -/
theorem calculate_smape_composite_formula (a p : List ℚ)
    (hlen : a.length = p.length) (_hne : a ≠ []) :
    calculate_smape a p = some (compositeSpecScore a p) := by
  rw [calculate_smape_eq a p (List.zipWith (fun x y => x - y) a p)
      (List.zipWith (fun x y => (x - y) / (x + eps)) a p)
      (broadcast2_of_length_eq _ a p hlen)
      (by
        rw [broadcast2_of_length_eq _ _ _
          (by simp [List.length_zipWith, hlen]), zipWith_zipWith_map])]
  unfold compositeSpecScore
  rw [show (fun e : ℚ => if |e| ≤ 1 then 1 / 2 * e ^ 2 else 1 * (|e| - 1 / 2))
      = (fun e : ℚ => if |e| ≤ 1 then e ^ 2 / 2 else |e| - 1 / 2) by
    funext e; split_ifs <;> ring]
  rw [mul_comm (mean ((List.zipWith (fun x y => (x - y) / (x + eps)) a p).map
      (fun x => |x|))) 100]

/-- C1, witness for the amended theorem at reference `[1]`,
candidate `[2]`. -/
theorem calculate_smape_composite_formula_witness :
    calculate_smape [1] [2] = some (compositeSpecScore [1] [2]) :=
  calculate_smape_composite_formula [1] [2] rfl (by simp)

/-- C5, counterexample.  Scaling both vectors by the positive constant 2
changes the score (108.5 versus 117.5), so the metric is not invariant
under simultaneous positive scaling: the epsilon stabiliser, the RMSE
coupling and the Huber loss all break scale invariance. -/
theorem calculate_smape_not_scale_invariant :
    calculate_smape [1] [2] ≠ calculate_smape [2] [4] := by
  rw [smape_eval_12, smape_eval_24]
  simp only [ne_eq, Option.some.injEq, Rat.cast_inj]
  norm_num

/-- C5, amended.  The zero-on-equal half of the claim holds: on any
nonempty vector paired with itself (away from the zero-denominator edge
case `x + 1e-8 = 0`, where the float code produces NaN) the score is 0. -/
theorem calculate_smape_zero_on_equal (r : List ℚ) (_hne : r ≠ [])
    (_hden : ∀ x ∈ r, x + eps ≠ 0) :
    calculate_smape r r = some 0 := by
  rw [calculate_smape_eq r r (r.map (fun _ => (0 : ℚ))) (r.map (fun _ => (0 : ℚ)))
      (by rw [broadcast2_of_length_eq _ _ _ rfl, zipWith_sub_self])
      (by rw [broadcast2_of_length_eq _ _ _ (by simp), zipWith_div_zero_left])]
  rw [show (r.map (fun _ => (0 : ℚ))).map (fun x => |x|) = r.map (fun _ => (0 : ℚ)) by simp]
  rw [show (r.map (fun _ => (0 : ℚ))).map (fun e => e ^ 2) = r.map (fun _ => (0 : ℚ)) by simp]
  rw [show (r.map (fun _ => (0 : ℚ))).map
      (fun e => if |e| ≤ 1 then 1 / 2 * e ^ 2 else 1 * (|e| - 1 / 2))
      = r.map (fun _ => (0 : ℚ)) by simp]
  rw [mean_zero]
  norm_num [rnd2R_zero]

/-- C5, witness for the amended theorem at the vector `[1]`. -/
theorem calculate_smape_zero_on_equal_witness :
    calculate_smape [1] [1] = some 0 :=
  calculate_smape_zero_on_equal [1] (by simp)
    (by intro x hx; rw [List.mem_singleton] at hx; rw [hx]; norm_num [eps])

/-- C6, counterexample.  The claim says every length mismatch fails, but
numpy broadcasting accepts a length-1 candidate against a length-3
reference and returns a score. -/
theorem calculate_smape_broadcasts_length_one :
    ([1, 2, 3] : List ℚ).length ≠ ([5] : List ℚ).length ∧
    (calculate_smape [1, 2, 3] [5]).isSome = true := by
  refine ⟨by decide, ?_⟩
  rw [calculate_smape_eq [1, 2, 3] [5] [-4, -3, -2]
      [-400000000 / 100000001, -300000000 / 200000001, -200000000 / 300000001]
    (by norm_num [broadcast2, List.headI])
    (by norm_num [broadcast2, eps, List.zipWith_cons_cons])]
  rfl

/-- C6, amended.  The metric fails (a numpy broadcast `ValueError`,
surfaced by the caller as an error payload rather than a named
`ShapeMismatch`) exactly when the lengths differ and neither vector has
length 1. -/
theorem calculate_smape_shape_mismatch (a p : List ℚ)
    (h1 : a.length ≠ p.length) (h2 : a.length ≠ 1) (h3 : p.length ≠ 1) :
    calculate_smape a p = none := by
  unfold calculate_smape
  rw [show broadcast2 (fun x y => x - y) a p = none by
    unfold broadcast2
    rw [if_neg h1, if_neg h2, if_neg h3]]

/-- C6, witness for the amended theorem at the claim's example
`reference = [1,2,3]`, `candidate = [1,2]`. -/
theorem calculate_smape_shape_mismatch_witness :
    calculate_smape [1, 2, 3] [1, 2] = none :=
  calculate_smape_shape_mismatch [1, 2, 3] [1, 2] (by decide) (by decide) (by decide)

/-- C7, counterexample.  On two empty vectors the code performs no
emptiness check and does not fail: `np.mean` of an empty slice yields NaN
with only a warning, and the function returns that value (modelled as a
defined junk value, since exact arithmetic has no NaN). -/
theorem calculate_smape_empty_no_failure :
    calculate_smape ([] : List ℚ) ([] : List ℚ) ≠ none := by
  rw [calculate_smape_eq [] [] [] [] rfl rfl]
  simp

/-- C7, amended.  On empty inputs the metric returns a (meaningless,
NaN-valued in the float code) result instead of an `EmptyInput` error. -/
theorem calculate_smape_empty_returns_value :
    (calculate_smape ([] : List ℚ) ([] : List ℚ)).isSome = true := by
  rw [calculate_smape_eq [] [] [] [] rfl rfl]
  rfl

/-! ### Claim C2: submission quota -/

/-- C2: when a team's recorded attempt count has reached
`MAX_SUBMISSIONS_PER_TEAM`, `upload` fails with the quota error before
any write — the state is unchanged, no attempt is recorded, and the
outcome does not depend on the score or timestamp the submission would
have produced; below the limit the attempt is always recorded, whatever
its score. -/
theorem upload_quota_enforced (s : DBState) (team : String) (score score' : ℚ)
    (ts ts' : ℕ) :
    (MAX_SUBMISSIONS_PER_TEAM ≤ countAttempts s team →
      upload s team score ts = (s, UploadResult.error)
        ∧ upload s team score ts = upload s team score' ts')
    ∧ (countAttempts s team < MAX_SUBMISSIONS_PER_TEAM →
      countAttempts (upload s team score ts).1 team = countAttempts s team + 1) := by
  constructor
  · intro h
    constructor
    · unfold upload
      rw [if_pos h]
    · unfold upload
      rw [if_pos h, if_pos h]
  · intro h
    unfold upload
    rw [if_neg (not_le_of_lt h)]
    simp [countAttempts, attemptsOf, List.filter_append]

/-- C2, witness: the 11th call on a full quota is rejected with the
state unchanged, and a first attempt is recorded. -/
theorem upload_quota_enforced_witness :
    upload quotaState "a" 5 3 = (quotaState, UploadResult.error)
      ∧ countAttempts (upload initialState "a" 5 3).1 "a" = 0 + 1 :=
  ⟨((upload_quota_enforced quotaState "a" 5 5 3 3).1 (by decide)).1,
   (upload_quota_enforced initialState "a" 5 5 3 3).2 (by decide)⟩

/-! ### Claim C4: leaderboard ordering -/

/-- C4, counterexample.  `ORDER BY smape ASC` does not order equal
scores by timestamp: after `cexEvents` the stored rows are A(8, t=3)
and B(8, t=2), and returning them in exactly that order is a legal
response of the query, yet it violates the earliest-timestamp tie-break
the claim asserts. -/
theorem leaderboard_no_timestamp_tiebreak :
    leaderboardRel (run cexEvents) [⟨0, "A", 8, 3⟩, ⟨1, "B", 8, 2⟩]
      ∧ ¬ List.Sorted tieBreakRel [⟨0, "A", 8, 3⟩, ⟨1, "B", 8, 2⟩] := by
  constructor
  · constructor
    · rw [show (run cexEvents).submissions = [⟨0, "A", 8, 3⟩, ⟨1, "B", 8, 2⟩] from rfl]
    · simp [List.sorted_cons]
  · intro hp
    have h := (List.pairwise_cons.mp hp).1 ⟨1, "B", 8, 2⟩ (by simp)
    rcases h with h | ⟨h1, h2⟩
    · exact absurd h (lt_irrefl _)
    · exact absurd h2 (by norm_num)

/-- C4, amended.  Every legal response is ascending in score and gets
dense 1-based ranks by position; the code defines no tie-break, so equal
scores may come back in any order.  For the claim's example scores the
returned score column is always `[8.00, 8.00, 12.34]` (team A last), and
the order B, C, A with ranks 1, 2, 3 is one possible output. -/
theorem leaderboard_sorted_with_ranks :
    (∀ s out, leaderboardRel s out →
        (ranked out).map Prod.fst = (List.range out.length).map (fun i => i + 1))
    ∧ (∀ out, leaderboardRel (run exEvents) out →
        out.map (fun r => r.smape) = [8, 8, 1234 / 100])
    ∧ leaderboardRel (run exEvents)
        [⟨1, "B", 8, 2⟩, ⟨2, "C", 8, 3⟩, ⟨0, "A", 1234 / 100, 1⟩] := by
  have hrun : (run exEvents).submissions
      = [⟨0, "A", 1234 / 100, 1⟩, ⟨1, "B", 8, 2⟩, ⟨2, "C", 8, 3⟩] := rfl
  refine ⟨?_, ?_, ?_, ?_⟩
  · intro s out _
    unfold ranked
    rw [List.map_map]
    rw [show ((fun p : ℕ × SubRow => p.1) ∘ fun p : ℕ × SubRow => (p.1 + 1, p.2))
        = (fun i : ℕ => i + 1) ∘ Prod.fst from rfl]
    rw [← List.map_map, List.enum_map_fst]
  · intro out hrel
    have h1 := hrel.1.map (fun r => r.smape)
    rw [hrun] at h1
    simp only [List.map_cons, List.map_nil] at h1
    have hsort : (out.map (fun r => r.smape)).Sorted (· ≤ ·) :=
      List.Pairwise.map _ (fun a b h => h) hrel.2
    have hperm : (out.map (fun r => r.smape)).Perm [8, 8, 1234 / 100] :=
      (h1.symm).trans (List.perm_append_singleton (1234 / 100) [8, 8]).symm
    exact List.eq_of_perm_of_sorted hperm hsort
      (by simp only [List.sorted_cons, List.mem_cons, List.mem_singleton,
            List.not_mem_nil, List.sorted_nil]; norm_num)
  · rw [hrun]
    exact (List.perm_append_singleton _ _).symm
  · simp only [List.sorted_cons, List.mem_cons, List.mem_singleton,
      List.not_mem_nil, List.sorted_nil]
    norm_num

/-- C4, witness for the amended theorem, instantiated at the possible
output B, C, A of the example state. -/
theorem leaderboard_sorted_with_ranks_witness :
    (ranked [⟨1, "B", 8, 2⟩, ⟨2, "C", 8, 3⟩, ⟨0, "A", 1234 / 100, 1⟩]).map Prod.fst
      = [1, 2, 3]
      ∧ ([⟨1, "B", 8, 2⟩, ⟨2, "C", 8, 3⟩, ⟨0, "A", 1234 / 100, 1⟩] : List SubRow).map
          (fun r => r.smape) = [8, 8, 1234 / 100] := by
  constructor
  · have h := leaderboard_sorted_with_ranks.1 (run exEvents) _
      leaderboard_sorted_with_ranks.2.2
    simpa using h
  · exact leaderboard_sorted_with_ranks.2.1 _ leaderboard_sorted_with_ranks.2.2

/-! ### Claim C8: per-user history -/

/-- C8, counterexample.  `/user/{name}` reads the best-score table
`submissions`, not the attempt log: after two attempts (10 then 8) by
team `a` the history query can only return the single stored best row,
never the two recorded attempts, so it does not return "all of that
team's Submission Attempts" even up to order. -/
theorem user_history_not_all_attempts :
    ¬ ∀ (s : DBState) (n : String) (out : List SubRow),
        userHistoryRel s n out →
          (out.map (fun r => (r.smape, r.timestamp))).Perm
            ((s.team_submissions.filter
                (fun r => lowerStr r.team_id = lowerStr n)).map
              (fun r => (r.smape, r.timestamp))) := by
  intro hclaim
  have h := hclaim (run [⟨"a", 10, 1⟩, ⟨"a", 8, 2⟩]) "a" [⟨0, "a", 8, 2⟩]
    ⟨by decide, by decide⟩
  exact absurd h.length_eq (by decide)

/-- C8, amended.  The lookup is case-insensitive — names with the same
lowercasing have exactly the same possible responses, as in the claim's
`teamalpha`/`TeamAlpha` example — but what it returns are the stored
best-score rows (ordered descending by timestamp), not the attempt
log. -/
theorem user_history_case_insensitive (s : DBState) (n1 n2 : String)
    (out : List SubRow) (h : lowerStr n1 = lowerStr n2) :
    (userHistoryRel s n1 out ↔ userHistoryRel s n2 out)
      ∧ (userHistoryRel s n1 out → ∀ r ∈ out, r ∈ s.submissions) := by
  constructor
  · unfold userHistoryRel
    rw [h]
  · intro hrel r hr
    exact (List.mem_filter.mp ((hrel.1.mem_iff).mpr hr)).1

/-- C8, witness: the response for `teamalpha` is also the response for
`TeamAlpha` on a store whose row spells the team `TeamAlpha`. -/
theorem user_history_case_insensitive_witness :
    userHistoryRel alphaState "TeamAlpha" [⟨0, "TeamAlpha", 8, 1⟩]
      ∧ (⟨0, "TeamAlpha", 8, 1⟩ : SubRow) ∈ alphaState.submissions :=
  ⟨((user_history_case_insensitive alphaState "teamalpha" "TeamAlpha"
      [⟨0, "TeamAlpha", 8, 1⟩] (by decide)).1).mp ⟨by decide, by decide⟩,
   ((user_history_case_insensitive alphaState "teamalpha" "TeamAlpha"
      [⟨0, "TeamAlpha", 8, 1⟩] (by decide)).2 ⟨by decide, by decide⟩
      ⟨0, "TeamAlpha", 8, 1⟩ (by decide))⟩

/-! ### Claim C9: reset -/

/-- C9: after `reset` the leaderboard query can only return the empty
sequence, and every team's attempt count is 0. -/
theorem reset_clears_all (s : DBState) (out : List SubRow) (team : String) :
    (leaderboardRel (reset s) out → out = []) ∧ countAttempts (reset s) team = 0 := by
  constructor
  · intro h
    exact (List.Perm.eq_nil h.1.symm)
  · rfl

/-- C9, witness at a concrete store. -/
theorem reset_clears_all_witness :
    countAttempts (reset quotaState) "a" = 0 ∧ ([] : List SubRow) = [] :=
  ⟨(reset_clears_all quotaState [] "a").2,
   (reset_clears_all quotaState [] "a").1 ⟨List.Perm.nil, List.sorted_nil⟩⟩

/-! ### Claim C10: clearing one session's history -/

/-- C10: `DELETE FROM submission_history WHERE session_id = %s` keeps a
history row exactly when its session id differs from the given one
(order preserved), and leaves the best-score table, the attempt log —
hence every leaderboard response and every attempt counter — untouched. -/
theorem clear_history_frame (s : DBState) (sid : String) :
    (∀ r, r ∈ (clear_history s sid).submission_history ↔
        r ∈ s.submission_history ∧ r.session_id ≠ sid)
    ∧ (clear_history s sid).submissions = s.submissions
    ∧ (clear_history s sid).team_submissions = s.team_submissions
    ∧ (∀ out, leaderboardRel (clear_history s sid) out ↔ leaderboardRel s out)
    ∧ (∀ t, countAttempts (clear_history s sid) t = countAttempts s t) := by
  refine ⟨?_, rfl, rfl, fun out => Iff.rfl, fun t => rfl⟩
  intro r
  simp [clear_history, List.mem_filter]

/-- C10, witness: clearing session `s1` keeps the `s2` row. -/
theorem clear_history_frame_witness :
    (⟨1, "s2", "b", 6, 2⟩ : HistRow) ∈ (clear_history histState "s1").submission_history
      ∧ (clear_history histState "s1").submissions = histState.submissions :=
  ⟨((clear_history_frame histState "s1").1 ⟨1, "s2", "b", 6, 2⟩).mpr
      ⟨by decide, by decide⟩,
   (clear_history_frame histState "s1").2.1⟩

/-! ### Claim C3: helper lemmas for the best-score invariant -/

theorem find?_eq_head?_filter {α : Type} (p : α → Bool) (l : List α) :
    l.find? p = (l.filter p).head? := by
  induction l with
  | nil => rfl
  | cons a t ih =>
    cases hpa : p a
    · rw [List.find?_cons_of_neg _ (by simp [hpa]),
        List.filter_cons_of_neg (by simp [hpa]), ih]
    · rw [List.find?_cons_of_pos _ hpa, List.filter_cons_of_pos hpa, List.head?_cons]

theorem updRow_user (i : ℕ) (sc : ℚ) (ts : ℕ) (r : SubRow) :
    (updRow i sc ts r).user = r.user := by
  unfold updRow
  split <;> rfl

theorem updRow_id (i : ℕ) (sc : ℚ) (ts : ℕ) (r : SubRow) :
    (updRow i sc ts r).id = r.id := by
  unfold updRow
  split <;> rfl

theorem updRow_of_ne (i : ℕ) (sc : ℚ) (ts : ℕ) (r : SubRow) (h : ¬ r.id = i) :
    updRow i sc ts r = r := by
  unfold updRow
  rw [if_neg h]

theorem updRow_of_eq (i : ℕ) (sc : ℚ) (ts : ℕ) (r : SubRow) (h : r.id = i) :
    updRow i sc ts r = { r with smape := sc, timestamp := ts } := by
  unfold updRow
  rw [if_pos h]

theorem filter_map_updRow (l : List SubRow) (i : ℕ) (sc : ℚ) (ts : ℕ) (t : String) :
    (l.map (updRow i sc ts)).filter (fun r => r.user = t)
      = (l.filter (fun r => r.user = t)).map (updRow i sc ts) := by
  induction l with
  | nil => rfl
  | cons a rest ih =>
    by_cases h : a.user = t
    · rw [List.map_cons, List.filter_cons_of_pos (by simp [updRow_user, h]),
        List.filter_cons_of_pos (by simp [h]), List.map_cons, ih]
    · rw [List.map_cons, List.filter_cons_of_neg (by simp [updRow_user, h]),
        List.filter_cons_of_neg (by simp [h]), ih]

theorem upload_fst_quota (s : DBState) (team : String) (score : ℚ) (ts : ℕ)
    (hq : MAX_SUBMISSIONS_PER_TEAM ≤ countAttempts s team) :
    (upload s team score ts).1 = s := by
  unfold upload
  rw [if_pos hq]

theorem upload_fst_insert (s : DBState) (team : String) (score : ℚ) (ts : ℕ)
    (hq : ¬ MAX_SUBMISSIONS_PER_TEAM ≤ countAttempts s team)
    (hf : s.submissions.find? (fun r => r.user = team) = none) :
    (upload s team score ts).1
      = ⟨s.submissions ++ [⟨s.nextSubId, team, score, ts⟩],
         s.team_submissions ++ [⟨team, score, ts⟩],
         s.submission_history, s.nextSubId + 1, s.nextHistId⟩ := by
  unfold upload
  rw [if_neg hq]
  simp only [hf]

theorem upload_fst_update (s : DBState) (team : String) (score : ℚ) (ts : ℕ)
    (ex : SubRow) (hq : ¬ MAX_SUBMISSIONS_PER_TEAM ≤ countAttempts s team)
    (hf : s.submissions.find? (fun r => r.user = team) = some ex)
    (hlt : score < ex.smape) :
    (upload s team score ts).1
      = ⟨s.submissions.map (updRow ex.id score ts),
         s.team_submissions ++ [⟨team, score, ts⟩],
         s.submission_history, s.nextSubId, s.nextHistId⟩ := by
  unfold upload
  rw [if_neg hq]
  simp only [hf, if_pos hlt]

theorem upload_fst_keep (s : DBState) (team : String) (score : ℚ) (ts : ℕ)
    (ex : SubRow) (hq : ¬ MAX_SUBMISSIONS_PER_TEAM ≤ countAttempts s team)
    (hf : s.submissions.find? (fun r => r.user = team) = some ex)
    (hge : ¬ score < ex.smape) :
    (upload s team score ts).1
      = ⟨s.submissions, s.team_submissions ++ [⟨team, score, ts⟩],
         s.submission_history, s.nextSubId, s.nextHistId⟩ := by
  unfold upload
  rw [if_neg hq]
  simp only [hf, if_neg hge]

theorem filter_append_att_self (A : List AttRow) (team : String) (score : ℚ) (ts : ℕ) :
    (A ++ [(⟨team, score, ts⟩ : AttRow)]).filter (fun r => r.team_id = team)
      = A.filter (fun r => r.team_id = team) ++ [(⟨team, score, ts⟩ : AttRow)] := by
  rw [List.filter_append, List.filter_cons_of_pos (by simp), List.filter_nil]

theorem filter_append_att_other (A : List AttRow) (team t : String) (score : ℚ)
    (ts : ℕ) (ht : ¬ t = team) :
    (A ++ [(⟨team, score, ts⟩ : AttRow)]).filter (fun r => r.team_id = t)
      = A.filter (fun r => r.team_id = t) := by
  rw [List.filter_append,
    List.filter_cons_of_neg (by simp only [decide_eq_true_eq]; exact fun h => ht h.symm),
    List.filter_nil, List.append_nil]

theorem filter_append_sub_self (L : List SubRow) (i : ℕ) (team : String) (score : ℚ)
    (ts : ℕ) :
    (L ++ [(⟨i, team, score, ts⟩ : SubRow)]).filter (fun r => r.user = team)
      = L.filter (fun r => r.user = team) ++ [(⟨i, team, score, ts⟩ : SubRow)] := by
  rw [List.filter_append, List.filter_cons_of_pos (by simp), List.filter_nil]

theorem filter_append_sub_other (L : List SubRow) (i : ℕ) (team t : String) (score : ℚ)
    (ts : ℕ) (ht : ¬ t = team) :
    (L ++ [(⟨i, team, score, ts⟩ : SubRow)]).filter (fun r => r.user = t)
      = L.filter (fun r => r.user = t) := by
  rw [List.filter_append,
    List.filter_cons_of_neg (by simp only [decide_eq_true_eq]; exact fun h => ht h.symm),
    List.filter_nil, List.append_nil]

/-- `upload` preserves the store invariant. -/
theorem upload_preserves_inv (s : DBState) (team : String) (score : ℚ) (ts : ℕ)
    (hInv : StoreInv s) : StoreInv (upload s team score ts).1 := by
  by_cases hq : MAX_SUBMISSIONS_PER_TEAM ≤ countAttempts s team
  · rw [upload_fst_quota s team score ts hq]
    exact hInv
  · cases hf : s.submissions.find? (fun r => r.user = team) with
    | none =>
      rw [upload_fst_insert s team score ts hq hf]
      have hnone : ∀ r ∈ s.submissions, ¬ r.user = team := by
        intro r hr
        simpa using List.find?_eq_none.mp hf r hr
      have hLnil : s.submissions.filter (fun r => r.user = team) = [] :=
        List.filter_eq_nil_iff.mpr (by intro a ha; simpa using hnone a ha)
      constructor
      · constructor
        · show ((s.submissions ++ [(⟨s.nextSubId, team, score, ts⟩ : SubRow)]).map
              (fun r => r.id)).Nodup
          rw [List.map_append, List.map_cons, List.map_nil,
            List.Perm.nodup_iff (List.perm_append_singleton _ _)]
          refine List.nodup_cons.mpr ⟨?_, hInv.1.1⟩
          intro hmem
          rcases List.mem_map.mp hmem with ⟨r, hrL, hrid⟩
          exact absurd (hrid ▸ hInv.1.2 r hrL) (lt_irrefl _)
        · intro r hr
          rcases List.mem_append.mp hr with hr | hr
          · exact Nat.lt_succ_of_lt (hInv.1.2 r hr)
          · rw [List.mem_singleton] at hr
            rw [hr]
            exact Nat.lt_succ_self _
      · intro t
        by_cases ht : t = team
        · subst ht
          rcases hInv.2 t with ⟨he0, ha0⟩ | ⟨e, he0, _, _⟩
          · right
            refine ⟨⟨s.nextSubId, t, score, ts⟩, ?_, ?_, ?_⟩
            · show (s.submissions ++ [(⟨s.nextSubId, t, score, ts⟩ : SubRow)]).filter
                  (fun r => r.user = t) = _
              rw [filter_append_sub_self, show s.submissions.filter
                  (fun r => r.user = t) = [] from he0, List.nil_append]
            · show _ ∈ ((s.team_submissions ++ [(⟨t, score, ts⟩ : AttRow)]).filter
                  (fun r => r.team_id = t)).map (fun r => r.smape)
              rw [filter_append_att_self, show s.team_submissions.filter
                  (fun r => r.team_id = t) = [] from ha0, List.nil_append]
              simp
            · intro q hq2
              rw [show attemptsOf ⟨s.submissions ++ [(⟨s.nextSubId, t, score, ts⟩ : SubRow)],
                    s.team_submissions ++ [(⟨t, score, ts⟩ : AttRow)], s.submission_history,
                    s.nextSubId + 1, s.nextHistId⟩ t
                  = (s.team_submissions ++ [(⟨t, score, ts⟩ : AttRow)]).filter
                      (fun r => r.team_id = t) from rfl,
                filter_append_att_self, show s.team_submissions.filter
                  (fun r => r.team_id = t) = [] from ha0, List.nil_append] at hq2
              rw [List.map_cons, List.map_nil, List.mem_singleton] at hq2
              rw [hq2]
          · exfalso
            have hmem : e ∈ entriesOf s t := by
              rw [he0]
              exact List.mem_singleton_self _
            have h2 := List.mem_filter.mp hmem
            exact hnone e h2.1 (by simpa using h2.2)
        · have he : entriesOf ⟨s.submissions ++ [(⟨s.nextSubId, team, score, ts⟩ : SubRow)],
              s.team_submissions ++ [(⟨team, score, ts⟩ : AttRow)], s.submission_history,
              s.nextSubId + 1, s.nextHistId⟩ t = entriesOf s t :=
            filter_append_sub_other s.submissions s.nextSubId team t score ts ht
          have ha : attemptsOf ⟨s.submissions ++ [(⟨s.nextSubId, team, score, ts⟩ : SubRow)],
              s.team_submissions ++ [(⟨team, score, ts⟩ : AttRow)], s.submission_history,
              s.nextSubId + 1, s.nextHistId⟩ t = attemptsOf s t :=
            filter_append_att_other s.team_submissions team t score ts ht
          have hiff : BestInv ⟨s.submissions ++ [(⟨s.nextSubId, team, score, ts⟩ : SubRow)],
              s.team_submissions ++ [(⟨team, score, ts⟩ : AttRow)], s.submission_history,
              s.nextSubId + 1, s.nextHistId⟩ t ↔ BestInv s t := by
            unfold BestInv
            rw [he, ha]
          exact hiff.mpr (hInv.2 t)
    | some ex =>
      have hex_mem : ex ∈ s.submissions := List.mem_of_find?_eq_some hf
      have hex_user : ex.user = team := by simpa using List.find?_some hf
      have hexE : ex ∈ entriesOf s team :=
        List.mem_filter.mpr ⟨hex_mem, by simp [hex_user]⟩
      by_cases hlt : score < ex.smape
      · rw [upload_fst_update s team score ts ex hq hf hlt]
        constructor
        · constructor
          · show ((s.submissions.map (updRow ex.id score ts)).map (fun r => r.id)).Nodup
            rw [List.map_map, show ((fun r : SubRow => r.id) ∘ updRow ex.id score ts)
                = (fun r : SubRow => r.id) from funext fun r => updRow_id ex.id score ts r]
            exact hInv.1.1
          · intro r hr
            rcases List.mem_map.mp hr with ⟨r0, hr0, rfl⟩
            rw [updRow_id]
            exact hInv.1.2 r0 hr0
        · intro t
          by_cases ht : t = team
          · subst ht
            rcases hInv.2 t with ⟨he0, _⟩ | ⟨e, he0, hmem0, hmin0⟩
            · rw [he0] at hexE
              cases hexE
            · have hexe : ex = e := by
                have h2 := hexE
                rw [he0, List.mem_singleton] at h2
                exact h2
              right
              refine ⟨{ e with smape := score, timestamp := ts }, ?_, ?_, ?_⟩
              · show (s.submissions.map (updRow ex.id score ts)).filter
                    (fun r => r.user = t) = _
                rw [filter_map_updRow, show s.submissions.filter (fun r => r.user = t)
                    = [e] from he0, List.map_cons, List.map_nil,
                  updRow_of_eq _ _ _ _ (by rw [hexe])]
              · show _ ∈ ((s.team_submissions ++ [(⟨t, score, ts⟩ : AttRow)]).filter
                    (fun r => r.team_id = t)).map (fun r => r.smape)
                rw [filter_append_att_self, List.map_append, List.map_cons, List.map_nil]
                exact List.mem_append.mpr (Or.inr (List.mem_singleton_self _))
              · intro q hq2
                rw [show attemptsOf ⟨s.submissions.map (updRow ex.id score ts),
                      s.team_submissions ++ [(⟨t, score, ts⟩ : AttRow)], s.submission_history,
                      s.nextSubId, s.nextHistId⟩ t
                    = (s.team_submissions ++ [(⟨t, score, ts⟩ : AttRow)]).filter
                        (fun r => r.team_id = t) from rfl,
                  filter_append_att_self, List.map_append, List.map_cons,
                  List.map_nil] at hq2
                rcases List.mem_append.mp hq2 with hq2 | hq2
                · exact le_trans (le_of_lt (by rw [hexe] at hlt; exact hlt)) (hmin0 q hq2)
                · rw [List.mem_singleton] at hq2
                  rw [hq2]
          · have he : entriesOf ⟨s.submissions.map (updRow ex.id score ts),
                s.team_submissions ++ [(⟨team, score, ts⟩ : AttRow)], s.submission_history,
                s.nextSubId, s.nextHistId⟩ t = entriesOf s t := by
              show (s.submissions.map (updRow ex.id score ts)).filter
                  (fun r => r.user = t) = _
              rw [filter_map_updRow]
              have : ∀ r ∈ s.submissions.filter (fun r => r.user = t),
                  updRow ex.id score ts r = r := by
                intro r hr
                have hrmem := List.mem_filter.mp hr
                refine updRow_of_ne _ _ _ _ ?_
                intro hid
                have : r = ex := List.inj_on_of_nodup_map hInv.1.1 hrmem.1 hex_mem hid
                rw [this] at hrmem
                have h3 : ex.user = t := by simpa using hrmem.2
                exact ht (h3.symm.trans hex_user)
              calc (s.submissions.filter (fun r => r.user = t)).map (updRow ex.id score ts)
                  = (s.submissions.filter (fun r => r.user = t)).map id :=
                    List.map_congr_left (by intro a ha; rw [this a ha]; rfl)
                _ = s.submissions.filter (fun r => r.user = t) := List.map_id _
            have ha : attemptsOf ⟨s.submissions.map (updRow ex.id score ts),
                s.team_submissions ++ [(⟨team, score, ts⟩ : AttRow)], s.submission_history,
                s.nextSubId, s.nextHistId⟩ t = attemptsOf s t :=
              filter_append_att_other s.team_submissions team t score ts ht
            have hiff : BestInv ⟨s.submissions.map (updRow ex.id score ts),
                s.team_submissions ++ [(⟨team, score, ts⟩ : AttRow)], s.submission_history,
                s.nextSubId, s.nextHistId⟩ t ↔ BestInv s t := by
              unfold BestInv
              rw [he, ha]
            exact hiff.mpr (hInv.2 t)
      · rw [upload_fst_keep s team score ts ex hq hf hlt]
        constructor
        · exact hInv.1
        · intro t
          by_cases ht : t = team
          · subst ht
            rcases hInv.2 t with ⟨he0, _⟩ | ⟨e, he0, hmem0, hmin0⟩
            · rw [he0] at hexE
              cases hexE
            · have hexe : ex = e := by
                have h2 := hexE
                rw [he0, List.mem_singleton] at h2
                exact h2
              right
              refine ⟨e, he0, ?_, ?_⟩
              · show _ ∈ ((s.team_submissions ++ [(⟨t, score, ts⟩ : AttRow)]).filter
                    (fun r => r.team_id = t)).map (fun r => r.smape)
                rw [filter_append_att_self, List.map_append]
                exact List.mem_append.mpr (Or.inl hmem0)
              · intro q hq2
                rw [show attemptsOf ⟨s.submissions,
                      s.team_submissions ++ [(⟨t, score, ts⟩ : AttRow)], s.submission_history,
                      s.nextSubId, s.nextHistId⟩ t
                    = (s.team_submissions ++ [(⟨t, score, ts⟩ : AttRow)]).filter
                        (fun r => r.team_id = t) from rfl,
                  filter_append_att_self, List.map_append, List.map_cons,
                  List.map_nil] at hq2
                rcases List.mem_append.mp hq2 with hq2 | hq2
                · exact hmin0 q hq2
                · rw [List.mem_singleton] at hq2
                  rw [hq2, ← hexe]
                  exact not_lt.mp hlt
          · have ha : attemptsOf ⟨s.submissions,
                s.team_submissions ++ [(⟨team, score, ts⟩ : AttRow)], s.submission_history,
                s.nextSubId, s.nextHistId⟩ t = attemptsOf s t :=
              filter_append_att_other s.team_submissions team t score ts ht
            have hiff : BestInv ⟨s.submissions,
                s.team_submissions ++ [(⟨team, score, ts⟩ : AttRow)], s.submission_history,
                s.nextSubId, s.nextHistId⟩ t ↔ BestInv s t := by
              unfold BestInv
              rw [ha]
              exact Iff.rfl
            exact hiff.mpr (hInv.2 t)

theorem storeInv_initial : StoreInv initialState := by
  refine ⟨⟨List.nodup_nil, ?_⟩, ?_⟩
  · intro r hr
    cases hr
  · intro t
    left
    exact ⟨rfl, rfl⟩

theorem storeInv_run (events : List UploadEvent) : StoreInv (run events) := by
  suffices h : ∀ s, StoreInv s →
      StoreInv (events.foldl (fun s e => (upload s e.team e.score e.ts).1) s) by
    exact h initialState storeInv_initial
  induction events with
  | nil => intro s hs; exact hs
  | cons e rest ih =>
    intro s hs
    exact ih _ (upload_preserves_inv s e.team e.score e.ts hs)

/-! ### Claim C3: the best-score invariant -/

/-- C3: after any sequence of submissions starting from the empty store,
each team has at most one best-score row; when a row exists its score is
the minimum over that team's recorded attempts; and a further accepted
submission leaves the table untouched unless its score is strictly lower
than the stored one, in which case exactly the stored row's score and
timestamp are replaced. -/
theorem upload_best_score_invariant (events : List UploadEvent) (team : String) :
    (entriesOf (run events) team).length ≤ 1
    ∧ (∀ e, entriesOf (run events) team = [e] →
        e.smape ∈ (attemptsOf (run events) team).map (fun r => r.smape)
          ∧ ∀ q ∈ (attemptsOf (run events) team).map (fun r => r.smape), e.smape ≤ q)
    ∧ (∀ score ts e, entriesOf (run events) team = [e] →
        countAttempts (run events) team < MAX_SUBMISSIONS_PER_TEAM →
          (¬ score < e.smape →
            (upload (run events) team score ts).1.submissions = (run events).submissions)
          ∧ (score < e.smape →
            entriesOf (upload (run events) team score ts).1 team
              = [{ e with smape := score, timestamp := ts }])) := by
  have hInv := storeInv_run events
  refine ⟨?_, ?_, ?_⟩
  · rcases hInv.2 team with ⟨he, _⟩ | ⟨e, he, _, _⟩
    · rw [he]
      simp
    · rw [he]
      simp
  · intro e he
    rcases hInv.2 team with ⟨h0, _⟩ | ⟨e', he', hmem, hmin⟩
    · rw [h0] at he
      cases he
    · rw [he'] at he
      injection he with h1 _
      subst h1
      exact ⟨hmem, hmin⟩
  · intro score ts e he hcnt
    have hq : ¬ MAX_SUBMISSIONS_PER_TEAM ≤ countAttempts (run events) team :=
      not_le_of_lt hcnt
    have he2 : (run events).submissions.filter (fun r => r.user = team) = [e] := he
    have hf : (run events).submissions.find? (fun r => r.user = team) = some e := by
      rw [find?_eq_head?_filter, he2]
      rfl
    constructor
    · intro hge
      rw [upload_fst_keep _ _ _ _ e hq hf hge]
    · intro hlt
      rw [upload_fst_update _ _ _ _ e hq hf hlt]
      show ((run events).submissions.map (updRow e.id score ts)).filter
          (fun r => r.user = team) = _
      rw [filter_map_updRow, he2, List.map_cons, List.map_nil,
        updRow_of_eq _ _ _ _ rfl]

/-- C3, witness: after team `a` submits 10 then 8, the single stored row
holds 8; a further 9 leaves the table unchanged, a further 7 replaces
the row's score and timestamp. -/
theorem upload_best_score_invariant_witness :
    ((⟨0, "a", 8, 2⟩ : SubRow).smape
        ∈ (attemptsOf (run [⟨"a", 10, 1⟩, ⟨"a", 8, 2⟩]) "a").map (fun r => r.smape))
    ∧ (upload (run [⟨"a", 10, 1⟩, ⟨"a", 8, 2⟩]) "a" 9 3).1.submissions
        = (run [⟨"a", 10, 1⟩, ⟨"a", 8, 2⟩]).submissions
    ∧ entriesOf (upload (run [⟨"a", 10, 1⟩, ⟨"a", 8, 2⟩]) "a" 7 3).1 "a"
        = [⟨0, "a", 7, 3⟩] :=
  ⟨((upload_best_score_invariant [⟨"a", 10, 1⟩, ⟨"a", 8, 2⟩] "a").2.1
      ⟨0, "a", 8, 2⟩ (by decide)).1,
   ((upload_best_score_invariant [⟨"a", 10, 1⟩, ⟨"a", 8, 2⟩] "a").2.2 9 3
      ⟨0, "a", 8, 2⟩ (by decide) (by decide)).1 (by norm_num),
   ((upload_best_score_invariant [⟨"a", 10, 1⟩, ⟨"a", 8, 2⟩] "a").2.2 7 3
      ⟨0, "a", 8, 2⟩ (by decide) (by decide)).2 (by norm_num)⟩
